import Mathlib

/-!
Shallow embedding of the JobBot aggregation pipeline (`internship_bot.py`).

Python dictionaries holding a listing are modelled by the structure `Record`
whose fields are `Option`-valued: `none` stands for an absent key (or a key
stored as Python `None`, which `dict.get` treats the same way), and `some s`
for a key present with string value `s`.  Python truthiness of a string is
emptiness, so `r.f.getD d` models `r.get('f', d)` and the guard
`if r.get('f'):` becomes `(r.f.getD "") ≠ ""`.

HTTP calls are abstracted by an explicit outcome value per endpoint: a
transport error (the `requests.get` call raised), or a response with a status
code and a body whose JSON decoding may fail or have an unexpected shape.
Python functions that can raise are embedded as `Except PyError`.
-/

set_option maxRecDepth 4096

/-- A normalized listing record; each field models one Python dict key. -/
structure Record where
  title : Option String := none
  companyName : Option String := none
  company_name : Option String := none
  company : Option String := none
  location : Option String := none
  locations : Option (List String) := none
  url : Option String := none
  postedDate : Option String := none
  posted_date : Option String := none
  source : Option String := none
  description : Option String := none
  sponsorship : Option String := none
  season : Option String := none
  deriving DecidableEq

/-- Exceptions our embedded Python fragments can raise. -/
inductive PyError where
  | indexError
  | unboundLocalError
  deriving DecidableEq

deriving instance DecidableEq for Except

/-- Result of `response.json()`: decoding raised `ValueError`, decoded to a
value of an unexpected container shape, or decoded to the expected list of
items of type `α`. -/
inductive JsonBody (α : Type) where
  | malformed
  | wrongShape
  | items (xs : List α)
  deriving DecidableEq

/-- Outcome of one `requests.get` call: the call raised, or returned a
response with a status code and a body. -/
inductive HttpResult (α : Type) where
  | transportError
  | response (status : Nat) (body : JsonBody α)
  deriving DecidableEq

/-- Python `str.lower()`.  (Lean's `Char.toLower` only folds ASCII letters,
Python's `lower` is Unicode-aware; every string the claims exercise is
ASCII.) -/
def pyLower (s : String) : String :=
  String.mk (s.toList.map Char.toLower)

/-- Python `s[:200] + '...' if s else None` applied to an optional string
(`internship_bot.py` lines 94 and 131). -/
def truncateDescription (d : Option String) : Option String :=
  match d with
  | some s => if s ≠ "" then some (s.take 200 ++ "...") else none
  | none => none

/-- Keep a string only when it is Python-truthy (non-empty); models
`if internship.get('f'):` guards. -/
def truthyOpt (d : Option String) : Option String :=
  match d with
  | some s => if s ≠ "" then some s else none
  | none => none

/-- Sort key `x.get('postedDate', x.get('posted_date', ''))` (line 111). -/
def postedKey (r : Record) : String :=
  r.postedDate.getD (r.posted_date.getD "")

/-- `unique_internships.sort(key=postedKey, reverse=True)`: a stable sort,
descending by the posted-date string. -/
def sortByPostedDesc (l : List Record) : List Record :=
  l.mergeSort (fun a b => decide (postedKey b ≤ postedKey a))

/-- The dedup loop of `fetch_internships` (lines 101-108) with the
`seen_urls` set made explicit: a record is kept iff its `url` is truthy and
not seen before, and then its url is added to the seen set. -/
def dedupAux : List Record → List String → List Record
  | [], _ => []
  | internship :: rest, seen_urls =>
    match internship.url with
    | some u =>
        if u ≠ "" ∧ u ∉ seen_urls then
          internship :: dedupAux rest (u :: seen_urls)
        else
          dedupAux rest seen_urls
    | none => dedupAux rest seen_urls

/-- URL-based deduplication, starting from an empty seen set. -/
def dedupByUrl (l : List Record) : List Record :=
  dedupAux l []

/-- The `seen_urls` set after the dedup loop has processed `l` starting from
`seen`. -/
def seenAfter : List Record → List String → List String
  | [], seen => seen
  | internship :: rest, seen =>
    match internship.url with
    | some u =>
        if u ≠ "" ∧ u ∉ seen then seenAfter rest (u :: seen)
        else seenAfter rest seen
    | none => seenAfter rest seen

/-- Records contributed by one internship endpoint (lines 59-72): on a 200
response whose body decoded to a list, each item is tagged with
`source = 'Internship API'`; any other outcome (non-200 status, transport
error, decode failure, non-list body) contributes nothing. -/
def internshipSourceRecords (res : HttpResult Record) : List Record :=
  match res with
  | .transportError => []
  | .response status body =>
    if status = 200 then
      match body with
      | .items data => data.map (fun job => { job with source := some "Internship API" })
      | _ => []
    else []

/-- Raw item shape of the LinkedIn endpoint used inside `fetch_internships`
(lines 86-95). -/
structure LinkedInRawJob where
  title : Option String := none
  company_name : Option String := none
  location : Option String := none
  apply_url : Option String := none
  posted_date : Option String := none
  description : Option String := none
  deriving DecidableEq

/-- The transformation of one LinkedIn item into the common shape
(lines 87-95). -/
def transformLinkedInJob (job : LinkedInRawJob) : Record :=
  { title := some (job.title.getD "")
    companyName := some (job.company_name.getD "")
    location := some (job.location.getD "")
    url := some (job.apply_url.getD "")
    postedDate := some (job.posted_date.getD "")
    source := some "LinkedIn"
    description := truncateDescription job.description }

/-- Records contributed by the LinkedIn leg of `fetch_internships`
(lines 74-99): transformed items on a 200 list response, nothing otherwise
(all exceptions are caught and logged). -/
def linkedInLegRecords (res : HttpResult LinkedInRawJob) : List Record :=
  match res with
  | .transportError => []
  | .response status body =>
    if status = 200 then
      match body with
      | .items data => data.map transformLinkedInJob
      | _ => []
    else []

/-- `fetch_internships` (lines 34-114): concatenate the contributions of the
three internship endpoints (given in order as `endpointResults`) and of the
LinkedIn endpoint, deduplicate by URL in first-seen order, and sort by the
posted-date string descending.  Every per-source failure is caught inside the
function, so it is total. -/
def fetch_internships (endpointResults : List (HttpResult Record))
    (linkedInResult : HttpResult LinkedInRawJob) : List Record :=
  let all_internships :=
    (endpointResults.map internshipSourceRecords).flatten
      ++ linkedInLegRecords linkedInResult
  let unique_internships := dedupByUrl all_internships
  sortByPostedDesc unique_internships

/-- One rendered display card; fields mirror what lines 135-153 put into the
embed (header pieces, field values, optional badges). -/
structure Card where
  company_name : String
  job_title : String
  url : Option String
  location : String
  posted : String
  source : String
  description : Option String
  sponsorship : Option String
  season : Option String
  deriving DecidableEq

/-- `internship.get('title', 'No Title')` (line 126). -/
def resolveTitle (r : Record) : String :=
  r.title.getD "No Title"

/-- The company fallback chain of line 127. -/
def resolveCompany (r : Record) : String :=
  r.companyName.getD (r.company_name.getD (r.company.getD "Unknown Company"))

/-- `internship.get('locations', [internship.get('location', 'Location not
specified')])` (line 128, before the `[0]` indexing). -/
def resolveLocationList (r : Record) : List String :=
  r.locations.getD [r.location.getD "Location not specified"]

/-- The posted-date fallback chain of line 129. -/
def resolvePosted (r : Record) : String :=
  r.postedDate.getD (r.posted_date.getD "Date not specified")

/-- `internship.get('source', 'Unknown Source')` (line 130). -/
def resolveSource (r : Record) : String :=
  r.source.getD "Unknown Source"

/-- The card-building loop of `format_internship_embed` (lines 121-160):
for each record, resolve the fields (indexing `[0]` into the locations list
raises `IndexError` when that list is present and empty), then emit a card
unless both title and company resolved to their placeholders. -/
def buildCards : List Record → Except PyError (List Card)
  | [] => .ok []
  | internship :: rest =>
    match resolveLocationList internship with
    | [] => .error .indexError
    | location :: _ =>
      let job_title := resolveTitle internship
      let company_name := resolveCompany internship
      if job_title ≠ "No Title" ∨ company_name ≠ "Unknown Company" then
        match buildCards rest with
        | .ok embeds =>
            .ok ({ company_name := company_name
                   job_title := job_title
                   url := internship.url
                   location := location
                   posted := resolvePosted internship
                   source := resolveSource internship
                   description := truncateDescription internship.description
                   sponsorship := truthyOpt internship.sponsorship
                   season := truthyOpt internship.season } :: embeds)
        | .error e => .error e
      else buildCards rest

/-- `format_internship_embed` (lines 116-162).  The `title` and
`description` parameters of the Python function are never read in its body;
they are kept here for fidelity.  `data[:limit]` is `List.take`. -/
def format_internship_embed (data : List Record) (title description : String)
    (limit : Nat) : Except PyError (List Card) :=
  buildCards (data.take limit)

/-- The company fallback chain of `search_internships` (lines 171-173),
whose final default is the empty string. -/
def companyOf (r : Record) : String :=
  r.companyName.getD (r.company_name.getD (r.company.getD ""))

/-- Python `needle in hay` on strings: substring containment. -/
def containsSub (hay needle : String) : Bool :=
  decide (needle.toList <:+: hay.toList)

/-- The per-record match test of `search_internships` (lines 170-192);
`query` is already lower-cased by the caller. -/
def matchesQuery (query : String) (internship : Record) : Bool :=
  containsSub (pyLower (companyOf internship)) query
  || containsSub (pyLower (internship.title.getD "")) query
  || containsSub (pyLower (internship.location.getD "")) query
  || (match internship.locations with
      | some locs => locs.any (fun loc => containsSub (pyLower loc) query)
      | none => false)

/-- `search_internships` (lines 164-196): lower-case the query, keep each
record whose company, title, location or some locations entry contains it
(the `continue` statements make the loop an ordinary filter), then sort the
matches by posted date descending. -/
def search_internships (data : List Record) (query : String) : List Record :=
  let q := pyLower query
  let hits := data.filter (matchesQuery q)
  sortByPostedDesc hits

/-- Nested `company` object of the LinkedIn search endpoint (line 444). -/
structure LinkedInCompany where
  name : Option String := none
  deriving DecidableEq

/-- Raw item shape of the LinkedIn search endpoint (lines 442-453). -/
structure LinkedInSearchJob where
  title : Option String := none
  company : Option LinkedInCompany := none
  location : Option String := none
  url : Option String := none
  postAt : Option String := none
  description : Option String := none
  deriving DecidableEq

/-- The transformation of one search item (lines 444-453):
`company = job.get('company', {})`, then field defaults. -/
def transformSearchJob (job : LinkedInSearchJob) : Record :=
  { title := some (job.title.getD "")
    companyName := some ((job.company.getD {}).name.getD "")
    location := some (job.location.getD "")
    url := some (job.url.getD "")
    postedDate := some (job.postAt.getD "")
    source := some "LinkedIn"
    description := some (job.description.getD "") }

/-- `fetch_linkedin_jobs` (lines 390-480).  The keyword/location/time-range
parameters only shape the outbound query string, which the `HttpResult`
input abstracts, so they are not repeated here.  The local variable `jobs`
is first assigned at line 436, inside the `status == 200` branch and after
`response.json()` has succeeded; on a transport error, a non-200 status, or
a JSON decode failure the handlers only log and control falls through to
`return jobs` (line 480), which raises `UnboundLocalError`.  A decoded
non-dict body leaves `jobs = []` in place and returns it.  In the dict case
`data.get('data', [])` is modelled by `.items`, the first `limit` items are
transformed, and a transformed job is kept iff its title or company name is
truthy. -/
def fetch_linkedin_jobs (hasApiKey : Bool) (res : HttpResult LinkedInSearchJob)
    (limit : Nat) : Except PyError (List Record) :=
  if ¬ hasApiKey then .ok []
  else
    match res with
    | .transportError => .error .unboundLocalError
    | .response status body =>
      if status = 200 then
        match body with
        | .malformed => .error .unboundLocalError
        | .wrongShape => .ok []
        | .items jobs_data =>
            .ok (((jobs_data.take limit).map transformSearchJob).filter
              (fun j => (j.title.getD "") ≠ "" || (j.companyName.getD "") ≠ ""))
      else .error .unboundLocalError

/-- The result of the argument-parsing section of the `linkedin` command. -/
structure LinkedInArgs where
  keywords : Option String
  location : Option String
  limit : Nat
  time_range : String
  deriving DecidableEq

/-- Helper for `pySplit`: walk the character list, accumulating the current
token in reverse; whitespace ends a token, and empty tokens are never
produced. -/
def splitWsAux : List Char → List Char → List String
  | [], acc => if acc.isEmpty then [] else [String.mk acc.reverse]
  | c :: cs, acc =>
    if c.isWhitespace then
      if acc.isEmpty then splitWsAux cs []
      else String.mk acc.reverse :: splitWsAux cs []
    else splitWsAux cs (c :: acc)

/-- Python `str.split()` with no separator: split on runs of whitespace,
with no empty pieces. -/
def pySplit (s : String) : List String :=
  splitWsAux s.toList []

/-- Python `str.isdigit` restricted to ASCII digits: non-empty and all
digits. -/
def pyIsDigit (s : String) : Bool :=
  s ≠ "" && s.toList.all Char.isDigit

/-- Python `int()` on an all-digit string. -/
def pyToNat (s : String) : Nat :=
  s.toList.foldl (fun n c => 10 * n + (c.toNat - 48)) 0

/-- The `time_keywords` table of lines 513-519, in insertion order. -/
def time_keywords : List (String × List String) :=
  [("past24h", ["24h", "24hours", "today", "past24h"]),
   ("past72h", ["72h", "72hours", "3days", "past72h"]),
   ("pastWeek", ["week", "7days", "pastweek"]),
   ("pastMonth", ["month", "30days", "pastmonth"]),
   ("anyTime", ["any", "all", "anytime"])]

/-- The `location_indicators` list of line 530. -/
def location_indicators : List String :=
  ["in", "at", "near", "around", "within"]

/-- The indicator scan of lines 531-535: find the first token that
lower-cases to a location indicator and is not the last token, and split the
token list there (tokens before the indicator, tokens after it). -/
def splitAtIndicator : List String → List String → Option (List String × List String)
  | _, [] => none
  | before, p :: rest =>
    if pyLower p ∈ location_indicators ∧ rest ≠ [] then some (before, rest)
    else splitAtIndicator (before ++ [p]) rest

/-- The argument-parsing section of the `linkedin` command (lines 499-545).
`none` input models the command invoked with no query (`query = None`; the
empty string is likewise falsy).  A whitespace-only query makes
`parts[-1]` raise `IndexError`, as does a query whose only token was
consumed as the numeric limit.  Parsing order: a trailing all-digit token
becomes the limit; then a trailing time-range synonym (matched on the table
in insertion order) becomes the time range; then, when at least two tokens
remain, they are split at a location indicator, else the last token becomes
the location; with fewer than two tokens everything becomes the keywords.
Finally the limit is clamped to [1, 50]. -/
def linkedin_parse_args (query : Option String) : Except PyError LinkedInArgs :=
  match query with
  | none => .ok ⟨none, none, max 1 (min 25 50), "past24h"⟩
  | some q =>
    if q = "" then .ok ⟨none, none, max 1 (min 25 50), "past24h"⟩
    else
      let parts0 := pySplit q
      match parts0.getLast? with
      | none => .error .indexError
      | some lastTok =>
        let limit := if pyIsDigit lastTok then pyToNat lastTok else 25
        let parts1 := if pyIsDigit lastTok then parts0.dropLast else parts0
        match parts1.getLast? with
        | none => .error .indexError
        | some lastTok1 =>
          let timeHit := time_keywords.find? (fun kv => pyLower lastTok1 ∈ kv.2)
          let time_range := match timeHit with
            | some kv => kv.1
            | none => "past24h"
          let parts2 := match timeHit with
            | some _ => parts1.dropLast
            | none => parts1
          let kwloc : Option String × Option String :=
            if parts2.length ≥ 2 then
              match splitAtIndicator [] parts2 with
              | some (pre, post) =>
                  (some (String.intercalate " " pre),
                   some (String.intercalate " " post))
              | none =>
                  (some (String.intercalate " " parts2.dropLast),
                   parts2.getLast?)
            else (some (String.intercalate " " parts2), none)
          .ok ⟨kwloc.1, kwloc.2, max 1 (min limit 50), time_range⟩

/-! ## Sample records used by concrete witnesses -/

/-- First-seen record for the shared-URL scenarios. -/
def sampleFirst : Record :=
  { title := some "SWE Intern", companyName := some "Acme",
    url := some "https://jobs.example/1", postedDate := some "2025-01-02" }

/-- A later record carrying the same URL as `sampleFirst`. -/
def sampleSecond : Record :=
  { title := some "Data Intern", companyName := some "Globex",
    url := some "https://jobs.example/1", postedDate := some "2025-01-03" }

/-- `sampleFirst` as it comes out of the internship-endpoint leg, tagged with
its source. -/
def sampleTagged : Record :=
  { sampleFirst with source := some "Internship API" }

/-! ## Lemmas about the dedup loop -/

lemma mem_seenAfter_of_mem (l : List Record) {u : String} {seen : List String}
    (h : u ∈ seen) : u ∈ seenAfter l seen := by
  induction l generalizing seen with
  | nil => simpa [seenAfter] using h
  | cons a rs ih =>
    simp only [seenAfter]
    cases ha : a.url with
    | none => simp only [ha]; exact ih h
    | some v =>
      simp only [ha]
      by_cases hc : v ≠ "" ∧ v ∉ seen
      · rw [if_pos hc]; exact ih (List.mem_cons_of_mem _ h)
      · rw [if_neg hc]; exact ih h

lemma url_mem_seenAfter (l : List Record) (seen : List String) {r : Record}
    {u : String} (hu : r.url = some u) (hne : u ≠ "") (hr : r ∈ l) :
    u ∈ seenAfter l seen := by
  induction l generalizing seen with
  | nil => cases hr
  | cons a rs ih =>
    simp only [seenAfter]
    rcases List.mem_cons.mp hr with h | h
    · subst h
      simp only [hu]
      by_cases hmem : u ∈ seen
      · rw [if_neg (by simp [hmem])]
        exact mem_seenAfter_of_mem rs hmem
      · rw [if_pos ⟨hne, hmem⟩]
        exact mem_seenAfter_of_mem rs (List.mem_cons_self _ _)
    · cases ha : a.url with
      | none => simp only [ha]; exact ih seen h
      | some v =>
        simp only [ha]
        by_cases hc : v ≠ "" ∧ v ∉ seen
        · rw [if_pos hc]; exact ih _ h
        · rw [if_neg hc]; exact ih _ h

lemma dedupAux_append (l₁ l₂ : List Record) (seen : List String) :
    dedupAux (l₁ ++ l₂) seen = dedupAux l₁ seen ++ dedupAux l₂ (seenAfter l₁ seen) := by
  induction l₁ generalizing seen with
  | nil => simp [dedupAux, seenAfter]
  | cons a rs ih =>
    rw [List.cons_append]
    simp only [dedupAux, seenAfter]
    cases ha : a.url with
    | none => simp only [ha]; exact ih seen
    | some v =>
      simp only [ha]
      by_cases hc : v ≠ "" ∧ v ∉ seen
      · rw [if_pos hc, if_pos hc, if_pos hc, ih, List.cons_append]
      · rw [if_neg hc, if_neg hc, if_neg hc, ih]

lemma dedupAux_eq_nil (l : List Record) (seen : List String)
    (h : ∀ r ∈ l, ∀ u, r.url = some u → u ≠ "" → u ∈ seen) :
    dedupAux l seen = [] := by
  induction l generalizing seen with
  | nil => rfl
  | cons a rs ih =>
    simp only [dedupAux]
    cases ha : a.url with
    | none =>
      simp only [ha]
      exact ih seen (fun r hr => h r (List.mem_cons_of_mem _ hr))
    | some v =>
      simp only [ha]
      have hcond : ¬ (v ≠ "" ∧ v ∉ seen) := by
        intro hv
        exact hv.2 (h a (List.mem_cons_self _ _) v ha hv.1)
      rw [if_neg hcond]
      exact ih seen (fun r hr => h r (List.mem_cons_of_mem _ hr))

lemma dedupByUrl_append_self (l : List Record) :
    dedupByUrl (l ++ l) = dedupByUrl l := by
  unfold dedupByUrl
  rw [dedupAux_append]
  have hnil : dedupAux l (seenAfter l []) = [] :=
    dedupAux_eq_nil _ _ (fun r hr u hu hne => url_mem_seenAfter l [] hu hne hr)
  rw [hnil, List.append_nil]

lemma filter_dedupAux_of_seen (l : List Record) (seen : List String) {u : String}
    (hu : u ∈ seen) :
    (dedupAux l seen).filter (fun r => decide (r.url = some u)) = [] := by
  induction l generalizing seen with
  | nil => rfl
  | cons a rs ih =>
    simp only [dedupAux]
    cases ha : a.url with
    | none => simp only [ha]; exact ih _ hu
    | some v =>
      simp only [ha]
      by_cases hc : v ≠ "" ∧ v ∉ seen
      · rw [if_pos hc]
        have hvne : ¬ (a.url = some u) := by
          rw [ha]
          intro hvu
          exact hc.2 ((Option.some.injEq _ _).mp hvu ▸ hu)
        rw [List.filter_cons_of_neg (by simpa using hvne)]
        exact ih _ (List.mem_cons_of_mem _ hu)
      · rw [if_neg hc]
        exact ih _ hu

lemma filter_dedupAux_of_not_seen (l : List Record) (seen : List String)
    {u : String} (hne : u ≠ "") (hu : u ∉ seen) :
    (dedupAux l seen).filter (fun r => decide (r.url = some u)) =
      (l.filter (fun r => decide (r.url = some u))).take 1 := by
  induction l generalizing seen with
  | nil => rfl
  | cons a rs ih =>
    simp only [dedupAux]
    cases ha : a.url with
    | none =>
      have hno : ¬ (a.url = some u) := by rw [ha]; exact fun h => Option.noConfusion h
      simp only [ha]
      rw [List.filter_cons_of_neg (by simpa using hno)]
      exact ih _ hu
    | some v =>
      simp only [ha]
      by_cases hvu : v = u
      · subst hvu
        rw [if_pos ⟨hne, hu⟩]
        have hyes : a.url = some v := ha
        rw [List.filter_cons_of_pos (by simpa using hyes),
            List.filter_cons_of_pos (by simpa using hyes)]
        rw [filter_dedupAux_of_seen rs (v :: seen) (List.mem_cons_self _ _)]
        rfl
      · have hno : ¬ (a.url = some u) := by
          rw [ha]; intro h; exact hvu ((Option.some.injEq _ _).mp h)
        rw [List.filter_cons_of_neg (by simpa using hno)]
        by_cases hc : v ≠ "" ∧ v ∉ seen
        · rw [if_pos hc, List.filter_cons_of_neg (by simpa using hno)]
          refine ih _ ?hnm
          simp only [List.mem_cons, not_or]
          exact ⟨fun h => hvu h.symm, hu⟩
        · rw [if_neg hc]
          exact ih _ hu

lemma mem_dedupAux {l : List Record} {seen : List String} {r : Record}
    (hr : r ∈ dedupAux l seen) : ∃ u, r.url = some u ∧ u ≠ "" := by
  induction l generalizing seen with
  | nil => cases hr
  | cons a rs ih =>
    simp only [dedupAux] at hr
    cases ha : a.url with
    | none =>
      simp only [ha] at hr
      exact ih hr
    | some v =>
      simp only [ha] at hr
      by_cases hc : v ≠ "" ∧ v ∉ seen
      · rw [if_pos hc] at hr
        rcases List.mem_cons.mp hr with h | h
        · exact ⟨v, h ▸ ha, hc.1⟩
        · exact ih h
      · rw [if_neg hc] at hr
        exact ih hr

/-! ## Claim theorems: aggregation -/

/-- C3: for every truthy URL value, the Aggregator's deduplication keeps
exactly the first record in input order carrying that URL and discards every
later record with the same URL, regardless of source. -/
theorem dedup_keeps_first_per_url (l : List Record) (u : String) (hu : u ≠ "") :
    (dedupByUrl l).filter (fun r => decide (r.url = some u)) =
      (l.filter (fun r => decide (r.url = some u))).take 1 :=
  filter_dedupAux_of_not_seen l [] hu (by simp)

/-- C3 witness: two records from different sources share one URL; the dedup
output contains exactly the first of them. -/
theorem dedup_keeps_first_per_url_witness :
    (dedupByUrl [sampleFirst, sampleSecond]).filter
        (fun r => decide (r.url = some "https://jobs.example/1")) =
      ([sampleFirst, sampleSecond].filter
        (fun r => decide (r.url = some "https://jobs.example/1"))).take 1 :=
  dedup_keeps_first_per_url [sampleFirst, sampleSecond] "https://jobs.example/1"
    (by decide)

/-- C4: URL deduplication is idempotent: the dedup-then-sort step applied to
an input concatenated with itself yields the same list as applied to the
input once. -/
theorem dedup_sort_idempotent (l : List Record) :
    sortByPostedDesc (dedupByUrl (l ++ l)) = sortByPostedDesc (dedupByUrl l) := by
  rw [dedupByUrl_append_self]

/-- C10: every record returned by `fetch_internships` carries a non-empty
URL; listings whose `url` is missing or empty are dropped by the dedup
step. -/
theorem fetch_internships_urls_truthy (endpointResults : List (HttpResult Record))
    (linkedInResult : HttpResult LinkedInRawJob) (r : Record)
    (hr : r ∈ fetch_internships endpointResults linkedInResult) :
    ∃ u, r.url = some u ∧ u ≠ "" := by
  have hmem : r ∈ dedupByUrl
      ((endpointResults.map internshipSourceRecords).flatten
        ++ linkedInLegRecords linkedInResult) :=
    List.mem_mergeSort.mp hr
  exact mem_dedupAux hmem

/-- C10 witness: the record contributed by a healthy endpoint indeed carries
its non-empty URL. -/
theorem fetch_internships_urls_truthy_witness :
    ∃ u, sampleTagged.url = some u ∧ u ≠ "" :=
  fetch_internships_urls_truthy [.response 200 (.items [sampleFirst])]
    .transportError sampleTagged (List.mem_mergeSort.mpr (by decide))

/-- C1: evaluation of the error paths.  A non-200 internship endpoint and a
transport error leave `fetch_internships` returning exactly the healthy
endpoint's records; but `fetch_linkedin_jobs` on a non-200 response or a
transport error reaches `return jobs` with the local `jobs` never assigned
and raises `UnboundLocalError` instead of returning an empty record list. -/
theorem fetch_error_handling_eval :
    fetch_internships
        [.response 200 (.items [sampleFirst]), .response 500 (.items [sampleSecond]),
          .transportError] .transportError
      = fetch_internships [.response 200 (.items [sampleFirst])] .transportError
    ∧ fetch_linkedin_jobs true (.response 500 .malformed) 25 = .error .unboundLocalError
    ∧ fetch_linkedin_jobs true .transportError 25 = .error .unboundLocalError :=
  ⟨rfl, rfl, rfl⟩

/-! ## Claim theorems: query engine -/

/-- A sample record whose company name matches the sample query. -/
def searchSample : Record :=
  { companyName := some "Google", title := some "SWE Intern",
    url := some "https://jobs.example/2", postedDate := some "2025-01-04" }

lemma matchesQuery_eq_true_iff (q : String) (r : Record) :
    matchesQuery q r = true ↔
      (q.toList <:+: (pyLower (companyOf r)).toList
      ∨ q.toList <:+: (pyLower (r.title.getD "")).toList
      ∨ q.toList <:+: (pyLower (r.location.getD "")).toList
      ∨ ∃ locs, r.locations = some locs
          ∧ ∃ loc ∈ locs, q.toList <:+: (pyLower loc).toList) := by
  cases hl : r.locations with
  | none =>
    simp only [matchesQuery, containsSub, hl, Bool.or_eq_true, decide_eq_true_eq]
    tauto
  | some locs =>
    simp only [matchesQuery, containsSub, hl, Bool.or_eq_true, decide_eq_true_eq,
      List.any_eq_true, Option.some.injEq]
    constructor
    · rintro (((h | h) | h) | h)
      · exact Or.inl h
      · exact Or.inr (Or.inl h)
      · exact Or.inr (Or.inr (Or.inl h))
      · exact Or.inr (Or.inr (Or.inr ⟨locs, rfl, h⟩))
    · rintro (h | h | h | ⟨locs2, hl2, h⟩)
      · exact Or.inl (Or.inl (Or.inl h))
      · exact Or.inl (Or.inl (Or.inr h))
      · exact Or.inl (Or.inr h)
      · cases hl2
        exact Or.inr h

/-- C5: every record in the Query Engine's output contains the (case-folded)
query as a substring of its case-folded company name, title, location, or
some entry of its locations list. -/
theorem search_members_match (data : List Record) (query : String) (r : Record)
    (hr : r ∈ search_internships data query) :
    (pyLower query).toList <:+: (pyLower (companyOf r)).toList
    ∨ (pyLower query).toList <:+: (pyLower (r.title.getD "")).toList
    ∨ (pyLower query).toList <:+: (pyLower (r.location.getD "")).toList
    ∨ ∃ locs, r.locations = some locs
        ∧ ∃ loc ∈ locs, (pyLower query).toList <:+: (pyLower loc).toList := by
  have hmem : r ∈ data.filter (matchesQuery (pyLower query)) :=
    List.mem_mergeSort.mp hr
  exact (matchesQuery_eq_true_iff _ _).mp (List.mem_filter.mp hmem).2

/-- C5 witness: the single output record for query "Goo" over a one-record
set matches on its company name. -/
theorem search_members_match_witness :
    (pyLower "Goo").toList <:+: (pyLower (companyOf searchSample)).toList
    ∨ (pyLower "Goo").toList <:+: (pyLower (searchSample.title.getD "")).toList
    ∨ (pyLower "Goo").toList <:+: (pyLower (searchSample.location.getD "")).toList
    ∨ ∃ locs, searchSample.locations = some locs
        ∧ ∃ loc ∈ locs, (pyLower "Goo").toList <:+: (pyLower loc).toList :=
  search_members_match [searchSample] "Goo" searchSample
    (List.mem_mergeSort.mpr (by decide))

/-- C6: every record whose case-folded company, title, location or some
locations entry contains the case-folded query appears in the Query Engine's
output, and it appears there exactly as often as in the input (matching on
several fields does not duplicate it). -/
theorem search_complete_no_duplicates (data : List Record) (query : String)
    (r : Record) (hmem : r ∈ data)
    (hmatch : (pyLower query).toList <:+: (pyLower (companyOf r)).toList
      ∨ (pyLower query).toList <:+: (pyLower (r.title.getD "")).toList
      ∨ (pyLower query).toList <:+: (pyLower (r.location.getD "")).toList
      ∨ ∃ locs, r.locations = some locs
          ∧ ∃ loc ∈ locs, (pyLower query).toList <:+: (pyLower loc).toList) :
    r ∈ search_internships data query
    ∧ (search_internships data query).count r = data.count r := by
  have hq : matchesQuery (pyLower query) r = true :=
    (matchesQuery_eq_true_iff _ _).mpr hmatch
  constructor
  · exact List.mem_mergeSort.mpr (List.mem_filter.mpr ⟨hmem, hq⟩)
  · have hperm : (search_internships data query).Perm
        (data.filter (matchesQuery (pyLower query))) :=
      List.mergeSort_perm _ _
    rw [hperm.count_eq]
    exact List.count_filter hq

/-- C6 witness: apply the completeness theorem at a concrete record and
query matching on the company field. -/
theorem search_complete_no_duplicates_witness :
    searchSample ∈ search_internships [searchSample] "Goo"
    ∧ (search_internships [searchSample] "Goo").count searchSample
        = [searchSample].count searchSample :=
  search_complete_no_duplicates [searchSample] "Goo" searchSample (by decide)
    (Or.inl (by decide))

/-! ## Claim theorems: presenter -/

lemma buildCards_mem_guard {l : List Record} {cards : List Card}
    (h : buildCards l = .ok cards) {c : Card} (hc : c ∈ cards) :
    c.job_title ≠ "No Title" ∨ c.company_name ≠ "Unknown Company" := by
  induction l generalizing cards with
  | nil =>
    injection h with h1
    rw [← h1] at hc
    cases hc
  | cons a rs ih =>
    simp only [buildCards] at h
    cases hloc : resolveLocationList a with
    | nil =>
      simp only [hloc] at h
      exact Except.noConfusion h
    | cons loc rest =>
      simp only [hloc] at h
      by_cases hg : resolveTitle a ≠ "No Title" ∨ resolveCompany a ≠ "Unknown Company"
      · rw [if_pos hg] at h
        cases hrec : buildCards rs with
        | ok cs =>
          rw [hrec] at h
          injection h with h1
          rw [← h1] at hc
          rcases List.mem_cons.mp hc with hceq | hcs
          · subst hceq
            exact hg
          · exact ih hrec hcs
        | error e =>
          rw [hrec] at h
          cases h
      · rw [if_neg hg] at h
        exact ih h hc

lemma buildCards_length {l : List Record} {cards : List Card}
    (h : buildCards l = .ok cards) : cards.length ≤ l.length := by
  induction l generalizing cards with
  | nil =>
    injection h with h1
    rw [← h1]
    exact Nat.le_refl _
  | cons a rs ih =>
    simp only [buildCards] at h
    cases hloc : resolveLocationList a with
    | nil =>
      simp only [hloc] at h
      exact Except.noConfusion h
    | cons loc rest =>
      simp only [hloc] at h
      by_cases hg : resolveTitle a ≠ "No Title" ∨ resolveCompany a ≠ "Unknown Company"
      · rw [if_pos hg] at h
        cases hrec : buildCards rs with
        | ok cs =>
          rw [hrec] at h
          injection h with h1
          rw [← h1]
          simpa using Nat.succ_le_succ (ih hrec)
        | error e =>
          rw [hrec] at h
          cases h
      · rw [if_neg hg] at h
        exact Nat.le_trans (ih h) (Nat.le_succ _)

/-- C7: the Presenter never emits a card for a record whose title resolved
to the placeholder and whose company also resolved to the placeholder. -/
theorem format_embed_skips_placeholders (data : List Record)
    (title descr : String) (limit : Nat) (cards : List Card)
    (h : format_internship_embed data title descr limit = .ok cards)
    (c : Card) (hc : c ∈ cards) :
    ¬ (c.job_title = "No Title" ∧ c.company_name = "Unknown Company") := by
  have hg := buildCards_mem_guard (l := data.take limit) h hc
  tauto

/-- A record with no title and no company fields at all. -/
def placeholderRecord : Record :=
  { url := some "https://jobs.example/9" }

/-- The card the Presenter renders for `searchSample`. -/
def searchSampleCard : Card :=
  { company_name := "Google", job_title := "SWE Intern",
    url := some "https://jobs.example/2", location := "Location not specified",
    posted := "2025-01-04", source := "Unknown Source",
    description := none, sponsorship := none, season := none }

/-- C7 witness: on a record set containing a placeholder-only record, the
only card emitted is the sample one, and it passes the check. -/
theorem format_embed_skips_placeholders_witness :
    ¬ (searchSampleCard.job_title = "No Title"
      ∧ searchSampleCard.company_name = "Unknown Company") :=
  format_embed_skips_placeholders [searchSample, placeholderRecord]
    "Latest Internship Opportunities"
    "Here are the most recent internship postings:" 25 [searchSampleCard]
    (by decide) searchSampleCard (by decide)

/-- C8: the Presenter emits at most `min limit data.length` cards. -/
theorem format_embed_output_le (data : List Record) (title descr : String)
    (limit : Nat) (cards : List Card)
    (h : format_internship_embed data title descr limit = .ok cards) :
    cards.length ≤ min limit data.length := by
  have h1 := buildCards_length (l := data.take limit) h
  simpa [List.length_take] using h1

/-- C8 witness: two records, limit one, one emitted card. -/
theorem format_embed_output_le_witness :
    ([searchSampleCard] : List Card).length
      ≤ min 1 ([searchSample, sampleFirst] : List Record).length :=
  format_embed_output_le [searchSample, sampleFirst]
    "Latest Internship Opportunities"
    "Here are the most recent internship postings:" 1 [searchSampleCard]
    (by decide)

/-- A record whose `location` key is present but holds the empty string. -/
def blankLocationRecord : Record :=
  { title := some "Engineer", location := some "" }

/-- A record whose `locations` key is present and holds an empty list. -/
def emptyLocationsRecord : Record :=
  { title := some "Engineer", locations := some [] }

/-- C9 counterexample: a present-but-empty `location` value is rendered as a
blank location field, and a present-but-empty `locations` list makes
card-building raise `IndexError`, so the Presenter is neither total nor
blank-free on such records. -/
theorem format_embed_blank_counterexample :
    (format_internship_embed [blankLocationRecord] "Latest Internship Opportunities"
        "Here are the most recent internship postings:" 25).map
        (fun cs => cs.map Card.location) = .ok [""]
    ∧ format_internship_embed [emptyLocationsRecord] "Latest Internship Opportunities"
        "Here are the most recent internship postings:" 25 = .error .indexError :=
  ⟨rfl, rfl⟩

/-- The card `buildCards` renders for a record whose location, date and
source keys are all absent. -/
def absentFieldsCard (a : Record) : Card :=
  { company_name := resolveCompany a
    job_title := resolveTitle a
    url := a.url
    location := "Location not specified"
    posted := "Date not specified"
    source := "Unknown Source"
    description := truncateDescription a.description
    sponsorship := truthyOpt a.sponsorship
    season := truthyOpt a.season }

lemma buildCards_defaults (l : List Record)
    (habs : ∀ r ∈ l, r.locations = none ∧ r.location = none ∧ r.postedDate = none
      ∧ r.posted_date = none ∧ r.source = none) :
    ∃ cards, buildCards l = .ok cards
      ∧ ∀ c ∈ cards, c.location = "Location not specified"
        ∧ c.posted = "Date not specified" ∧ c.source = "Unknown Source" := by
  induction l with
  | nil => exact ⟨[], rfl, fun c hc => absurd hc (List.not_mem_nil c)⟩
  | cons a rs ih =>
    obtain ⟨h1, h2, h3, h4, h5⟩ := habs a (List.mem_cons_self _ _)
    obtain ⟨cards, hok, hprop⟩ := ih (fun r hr => habs r (List.mem_cons_of_mem _ hr))
    have hloc : resolveLocationList a = ["Location not specified"] := by
      simp [resolveLocationList, h1, h2]
    have hpd : resolvePosted a = "Date not specified" := by
      simp [resolvePosted, h3, h4]
    have hsrc : resolveSource a = "Unknown Source" := by
      simp [resolveSource, h5]
    by_cases hg : resolveTitle a ≠ "No Title" ∨ resolveCompany a ≠ "Unknown Company"
    · refine ⟨absentFieldsCard a :: cards, ?_, ?_⟩
      · simp only [buildCards, hloc, hpd, hsrc, if_pos hg, hok, absentFieldsCard]
      · intro c hc
        rcases List.mem_cons.mp hc with hce | hcs
        · subst hce
          exact ⟨rfl, rfl, rfl⟩
        · exact hprop c hcs
    · refine ⟨cards, ?_, hprop⟩
      simp only [buildCards, hloc, if_neg hg, hok]

/-- C9 (amended): when the location, posted-date and source keys are absent,
the Presenter backfills them with the literal default strings, never a blank
field; the original claim fails for a present-but-empty `location` value
(blank field) and a present-but-empty `locations` list (IndexError). -/
theorem format_embed_backfills_absent (data : List Record)
    (title descr : String) (limit : Nat)
    (habs : ∀ r ∈ data, r.locations = none ∧ r.location = none ∧ r.postedDate = none
      ∧ r.posted_date = none ∧ r.source = none) :
    ∃ cards, format_internship_embed data title descr limit = .ok cards
      ∧ ∀ c ∈ cards, c.location = "Location not specified"
        ∧ c.posted = "Date not specified" ∧ c.source = "Unknown Source" :=
  buildCards_defaults (data.take limit)
    (fun r hr => habs r (List.take_subset _ _ hr))

/-- C9 witness: a one-record list with absent location, date and source
fields renders with all three defaults. -/
theorem format_embed_backfills_absent_witness :
    ∃ cards, format_internship_embed [({ title := some "Engineer" } : Record)]
        "Latest Internship Opportunities"
        "Here are the most recent internship postings:" 25 = .ok cards
      ∧ ∀ c ∈ cards, c.location = "Location not specified"
        ∧ c.posted = "Date not specified" ∧ c.source = "Unknown Source" :=
  format_embed_backfills_absent [({ title := some "Engineer" } : Record)]
    "Latest Internship Opportunities"
    "Here are the most recent internship postings:" 25 (by decide)

/-! ## Claim theorems: linkedin command argument parsing -/

/-- C2 counterexample: on the input string `"software engineer" boston 20
week` the parser does not produce keywords="software engineer",
location="boston", limit=20, time_range="pastWeek". -/
theorem linkedin_args_scenario_counterexample :
    linkedin_parse_args (some "\"software engineer\" boston 20 week")
      ≠ .ok ⟨some "software engineer", some "boston", 20, "pastWeek"⟩ := by
  decide

/-- C2 (amended): on that input the trailing token `week` becomes
time_range="pastWeek", but the numeric check only looks at the very last
token, so `20` is not consumed as the limit (which stays 25); with no
location preposition among the remaining tokens the last one, `20`, becomes
the location, and the quote characters stay inside the keywords, giving
keywords=`"software engineer" boston`. -/
theorem linkedin_args_scenario_actual :
    linkedin_parse_args (some "\"software engineer\" boston 20 week")
      = .ok ⟨some "\"software engineer\" boston", some "20", 25, "pastWeek"⟩ := by
  decide
